import Mathlib

/-!
Verification development for the `gitlab-triage` (platinum-triage) engine.

The JavaScript sources are shallowly embedded below, module by module:

* `PolicyEngine` — `src/src/core/policyEngine.js` (condition evaluation,
  `stringToArray`, `applyLimits`, composite `evaluateConditions`);
* `CommandFramework` — `src/src/core/CommandFramework.js` (pattern
  tokenizer and `match`);
* `ActionExecutor` — the action executor module (class `ActionExecutor`
  with label/status/comment/… actions, `unmarkComment` template
  substitution, extension dispatch and dry-run gating).

JavaScript-specific behaviour (truthiness, `===` across types, `||`
fallbacks, `String.prototype.replace` with a lazy `(.*?)` group) is made
explicit through small helper functions so that every definition mirrors
one line of the source.  Strings are modelled as Lean `String`, numbers
as `Int`, absent/`undefined`/`null` record fields as `Option`.
-/

namespace GitlabTriage

/-- Whitespace class used by JavaScript `\s`, `String.prototype.trim` and
`split(/\s+/)` (restricted to the ASCII part; the sources only ever meet
ASCII whitespace). -/
def jsWs (c : Char) : Bool :=
  c = ' ' || c = '\t' || c = '\n' || c = '\r' || c = '\x0b' || c = '\x0c'

/-- JavaScript `String.prototype.trim` on a character list. -/
def trimChars (cs : List Char) : List Char :=
  ((cs.dropWhile jsWs).reverse.dropWhile jsWs).reverse

/-- JavaScript `String.prototype.trim`. -/
def jsTrim (s : String) : String :=
  ⟨trimChars s.data⟩

/-- Helper of `jsSplitWs`: accumulates the current word (reversed). -/
def splitWsAux : List Char → List Char → List String
  | [], acc => if acc.isEmpty then [] else [⟨acc.reverse⟩]
  | c :: rest, acc =>
    if jsWs c then
      if acc.isEmpty then splitWsAux rest [] else ⟨acc.reverse⟩ :: splitWsAux rest []
  else splitWsAux rest (c :: acc)

/-- Splitting a trimmed string on runs of whitespace, as
`str.trim().split(/\s+/)` behaves on the sources' inputs (the leading
`trim` makes leading/trailing separators irrelevant, which this grouping
split reproduces directly). -/
def jsSplitWs (s : String) : List String :=
  splitWsAux s.data []

/-- JavaScript strict equality `===` between a boolean and a string: the
operands have different types, so the comparison is always `false`.  Used
by the (defective) OR-group filter in `evaluateLabelsCondition`. -/
def jsStrictEqBoolString (_ : Bool) (_ : String) : Bool :=
  false

/-- JavaScript `!s` on a string: `true` exactly for the empty string. -/
def jsNotString (s : String) : Bool :=
  s = ""

namespace PolicyEngine

/-- A label as stored on a GitLab resource: the API returns either a plain
name string or a label object; `evaluateLabelsCondition` projects both to
the name (`typeof label === 'string' ? label : label.name`). -/
inductive JLabel where
  | str (s : String)
  | obj (name : String)
deriving DecidableEq, Repr

/-- The `label => typeof label === 'string' ? label : label.name`
projection. -/
def labelName : JLabel → String
  | .str s => s
  | .obj n => n

/-- Helper of `stringToArray`: searches, left to right, for the first `{`
(with a non-empty preceding prefix, since the regex `^(.+?)` needs at
least one character) that is followed by a non-empty `}`-free run and a
closing `}` — exactly the backtracking behaviour of the source regex
`^(.+?)([\x7b])([^\x7d]+)(\x7d)` on a match attempt anchored at the start.
The prefix characters are matched by `.`, which fails on line
terminators.  Returns the prefix characters and the characters of the
brace body. -/
def stringToArrayAux : List Char → List Char → Option (List Char × List Char)
  | _, [] => none
  | pre, c :: rest =>
    if c = '\n' || c = '\r' || c = '\u2028' || c = '\u2029' then
      none
    else if c = '\x7b' && !pre.isEmpty then
      let body := rest.takeWhile (· ≠ '\x7d')
      if !body.isEmpty && (rest.drop body.length).head? = some '\x7d' then
        some (pre, body)
      else
        stringToArrayAux (pre ++ [c]) rest
    else
      stringToArrayAux (pre ++ [c]) rest

/-- Helper of `splitComma`: accumulates the current fragment (reversed). -/
def splitCommaAux : List Char → List Char → List String
  | [], acc => [⟨acc.reverse⟩]
  | c :: rest, acc =>
    if c = ',' then ⟨acc.reverse⟩ :: splitCommaAux rest []
    else splitCommaAux rest (c :: acc)

/-- JavaScript `String.prototype.split(',')` (keeps empty fragments). -/
def splitComma (cs : List Char) : List String :=
  splitCommaAux cs []

/-- Embedding of `PolicyEngine.stringToArray`: expands `pre\x7ba,b,c\x7d` into
`[prea, preb, prec]`.  The source computes
`separator = match[2] === '\x7b' ? '' : …`; since capture group 2 is the
literal `\x7b`, the separator is always the empty string, which the
definition inlines. -/
def stringToArray (str : String) : List String :=
  match stringToArrayAux [] str.data with
  | none => []
  | some (pre, body) =>
    let key := jsTrim ⟨pre⟩
    let values := (splitComma body).map jsTrim
    values.map (fun value => key ++ value)

/-- The body of the `for (const label of orLabels)` loop in
`evaluateLabelsCondition`, together with the final
`requiredLabels.every(...)` check.  Each iteration requires one expansion
of the group to be present and then reassigns
`requiredLabels = requiredLabels.filter(x => !x === label)` — a strict
equality between a boolean and a string, hence an always-false predicate
that empties the list. -/
def orLoop (labelNames : List String) : List String → List String → Bool
  | [], requiredLabels => requiredLabels.all (fun label => labelNames.contains label)
  | l :: rest, requiredLabels =>
    if (stringToArray l).any (fun label => labelNames.contains label) then
      orLoop labelNames rest
        (requiredLabels.filter (fun x => jsStrictEqBoolString (jsNotString x) l))
    else
      false

/-- Embedding of `PolicyEngine.evaluateLabelsCondition` (the `Array.isArray` guard is
carried by the type). -/
def evaluateLabelsCondition (labels : List JLabel) (requiredLabels : List String) : Bool :=
  let labelNames := labels.map labelName
  if requiredLabels.contains "None" then
    labelNames.length = 0
  else if requiredLabels.contains "Any" then
    decide (labelNames.length > 0)
  else
    let orLabels := requiredLabels.filter (fun x => x.data.contains '\x7b')
    orLoop labelNames orLabels requiredLabels

/-- Modelled from the spec: the intended labels-condition semantics that
`evaluateLabelsCondition` is claimed to implement for lists containing
brace-groups — every brace-group entry must have at least one expansion
present, and, independently, every non-group entry must be present
(§4.1 of the spec; the spec itself notes the source's OR-group removal is
defective and prescribes these two independent checks). -/
def specLabelsCondition (labels : List JLabel) (requiredLabels : List String) : Bool :=
  let labelNames := labels.map labelName
  let orLabels := requiredLabels.filter (fun x => x.data.contains '\x7b')
  let plainLabels := requiredLabels.filter (fun x => !(x.data.contains '\x7b'))
  orLabels.all (fun g => (stringToArray g).any (fun label => labelNames.contains label)) &&
    plainLabels.all (fun label => labelNames.contains label)

/-- The external `date-fns` difference functions the date condition
dispatches to: each maps `(now, parsedTimestamp)` — both in milliseconds
since the epoch — to a signed, truncated difference in the corresponding
unit.  `date-fns` is a third-party collaborator, so it enters the
embedding as this parameter record. -/
structure DiffFns where
  minutes : Int → Int → Int
  hours : Int → Int → Int
  days : Int → Int → Int
  weeks : Int → Int → Int
  months : Int → Int → Int
  years : Int → Int → Int

/-- A `date-fns` instance on a uniform timeline (no DST or calendar
irregularities): every difference is the truncated-toward-zero quotient
of the millisecond difference, which is exactly `date-fns`' documented
rounding.  Only the `days` component is exercised by the spec's concrete
example. -/
def linearDiffFns : DiffFns where
  minutes := fun now t => (now - t).tdiv 60000
  hours := fun now t => (now - t).tdiv 3600000
  days := fun now t => (now - t).tdiv 86400000
  weeks := fun now t => (now - t).tdiv 604800000
  months := fun now t => (now - t).tdiv 2592000000
  years := fun now t => (now - t).tdiv 31536000000

/-- Configuration of a `date` condition. -/
structure DateConfig where
  attr : String
  condition : String
  interval_type : String
  interval : Int
deriving DecidableEq, Repr

/-- The `switch (interval_type)` of `evaluateDateCondition`: picks the
`date-fns` difference for the unit, `none` for the `default: return
false` branch. -/
def unitDiff (fns : DiffFns) (interval_type : String) (now t : Int) : Option Int :=
  if interval_type = "minutes" then some (fns.minutes now t)
  else if interval_type = "hours" then some (fns.hours now t)
  else if interval_type = "days" then some (fns.days now t)
  else if interval_type = "weeks" then some (fns.weeks now t)
  else if interval_type = "months" then some (fns.months now t)
  else if interval_type = "years" then some (fns.years now t)
  else none

/-- Embedding of `PolicyEngine.evaluateDateCondition`.  `attr` is
`resource[attribute]` parsed by `parseISO` into epoch milliseconds;
`none` models a missing/falsy attribute (the `if (!resource[attribute])
return false` guard). -/
def evaluateDateCondition (fns : DiffFns) (now : Int) (attr : Option Int)
    (cfg : DateConfig) : Bool :=
  match attr with
  | none => false
  | some t =>
    match unitDiff fns cfg.interval_type now t with
    | none => false
    | some timeDifference =>
      if cfg.condition = "older_than" then timeDifference ≥ cfg.interval
      else if cfg.condition = "newer_than" then timeDifference ≤ cfg.interval
      else false

/-- Parameters of an `author_member` condition; `Option` models
absent/undefined fields, and the code's `!source`-style guards also fire
on present-but-falsy values (`""`, `0`), which the truthiness helpers
below make explicit. -/
structure AuthorMemberParams where
  source : Option String
  source_id : Option Int
  condition : Option String
deriving DecidableEq, Repr

/-- JavaScript falsiness of an optional string (`undefined` or `""`). -/
def optStrFalsy : Option String → Bool
  | none => true
  | some s => s = ""

/-- JavaScript falsiness of an optional number (`undefined` or `0`). -/
def optIntFalsy : Option Int → Bool
  | none => true
  | some n => n = 0

/-- Embedding of `PolicyEngine.evaluateAuthorMemberCondition` — an `async` method, so
its outcome is a promise: `.ok b` for a resolution, `.error msg` for a
rejection (the `throw new Error(...)`).  `memberLookup` abstracts the
`gitlab.GroupMembers.show` collaborator call: `some b` is a successful
response of truthiness `b`, `none` a thrown API error (caught and turned
into `false` by the `try/catch`). -/
def evaluateAuthorMemberCondition (memberLookup : Option Bool)
    (p : AuthorMemberParams) : Except String Bool :=
  if optStrFalsy p.source || optIntFalsy p.source_id || optStrFalsy p.condition then
    .ok false
  else
    match p.source with
    | some "group" =>
      match memberLookup with
      | some member => .ok member
      | none => .ok false
    | some s => .error ("Unsupported source: " ++ s)
    | none => .ok false

/-- What `evaluateCondition` hands back to its (synchronous) caller: a
plain boolean for synchronous condition kinds, or the pending promise a
call of an `async` method evaluates to. -/
inductive CondResult where
  | sync (b : Bool)
  | promise (p : Except String Bool)
deriving Repr

/-- JavaScript truthiness of such a value: a `Promise` object is an
object, hence always truthy, whatever it will resolve or reject to. -/
def condTruthy : CondResult → Bool
  | .sync b => b
  | .promise _ => true

/-- The slice of a resource the embedded condition kinds read. -/
structure PolicyResource where
  labels : List JLabel
  state : String
  timestamps : String → Option Int

/-- One entry of a rule's condition map (the kinds needed by the claims;
the remaining kinds of the `switch` are analogous synchronous
one-liners). -/
inductive Condition where
  | date (cfg : DateConfig)
  | state (expected : String)
  | labels (requiredLabels : List String)
  | author_member (p : AuthorMemberParams)

/-- Embedding of `PolicyEngine.evaluateCondition`, restricted to the embedded kinds.
Synchronous kinds return their boolean; `author_member` is `async`, so
the call expression evaluates to a promise. -/
def evaluateCondition (fns : DiffFns) (now : Int) (memberLookup : Option Bool)
    (r : PolicyResource) : Condition → CondResult
  | .date cfg => .sync (evaluateDateCondition fns now (r.timestamps cfg.attr) cfg)
  | .state expected => .sync (r.state = expected)
  | .labels req => .sync (evaluateLabelsCondition r.labels req)
  | .author_member p => .promise (evaluateAuthorMemberCondition memberLookup p)

/-- Embedding of `PolicyEngine.evaluateConditions`: iterates the condition entries and
returns `false` on the first entry whose value is falsy — which for the
promise of an `async` condition never happens. -/
def evaluateConditions (fns : DiffFns) (now : Int) (memberLookup : Option Bool)
    (r : PolicyResource) (conditions : List Condition) : Bool :=
  conditions.all (fun c => condTruthy (evaluateCondition fns now memberLookup r c))

/-- The slice of a resource `applyLimits` reads: `created_at` parsed via
`new Date(...)` into epoch milliseconds; `id` keeps resources apart. -/
structure TriageResource where
  id : Nat
  created_at : Int
deriving DecidableEq, Repr

/-- A rule's `limits` object. -/
structure Limits where
  most_recent : Option Nat
  oldest : Option Nat
deriving DecidableEq, Repr

/-- JavaScript truthiness of an optional non-negative number
(`if (limits.most_recent)`): `undefined` and `0` are falsy. -/
def optNatTruthy : Option Nat → Bool
  | none => false
  | some n => n ≠ 0

/-- The descending comparator `(a, b) => new Date(b.created_at) - new
Date(a.created_at)`: `a` may precede `b` when `b`'s creation time is at
most `a`'s. -/
def createdDescRel : TriageResource → TriageResource → Prop :=
  fun a b => b.created_at ≤ a.created_at

/-- The ascending comparator `(a, b) => new Date(a.created_at) - new
Date(b.created_at)`. -/
def createdAscRel : TriageResource → TriageResource → Prop :=
  fun a b => a.created_at ≤ b.created_at

instance : DecidableRel createdDescRel :=
  fun a b => Int.decLe b.created_at a.created_at

instance : DecidableRel createdAscRel :=
  fun a b => Int.decLe a.created_at b.created_at

instance : IsTotal TriageResource createdDescRel :=
  ⟨fun a b => le_total b.created_at a.created_at⟩

instance : IsTrans TriageResource createdDescRel :=
  ⟨fun _ _ _ h1 h2 => le_trans h2 h1⟩

instance : IsTotal TriageResource createdAscRel :=
  ⟨fun a b => le_total a.created_at b.created_at⟩

instance : IsTrans TriageResource createdAscRel :=
  ⟨fun _ _ _ h1 h2 => le_trans h1 h2⟩

/-- Embedding of `[...resources].sort((a, b) => new Date(b.created_at) - new
Date(a.created_at))` — a comparator sort of a fresh copy, newest first
(modelled by insertion sort; the claims do not depend on how equal
timestamps are tie-broken). -/
def sortDescByCreated (l : List TriageResource) : List TriageResource :=
  List.insertionSort createdDescRel l

/-- The ascending counterpart used by the `oldest` limit. -/
def sortAscByCreated (l : List TriageResource) : List TriageResource :=
  List.insertionSort createdAscRel l

/-- Embedding of `PolicyEngine.applyLimits`. -/
def applyLimits (resources : List TriageResource) (limits : Option Limits) :
    List TriageResource :=
  match limits with
  | none => resources
  | some lim =>
    if optNatTruthy lim.most_recent then
      (sortDescByCreated resources).take (lim.most_recent.getD 0)
    else if optNatTruthy lim.oldest then
      (sortAscByCreated resources).take (lim.oldest.getD 0)
    else
      resources

end PolicyEngine

namespace CommandFramework

/-- A pattern token: literal word or variadic capture variable
(`variable` in the source; `var` here because `variable` is a Lean
keyword). -/
inductive Token where
  | literal (value : String)
  | var (name : String)
deriving DecidableEq, Repr

/-- The JavaScript `\w` class, `[A-Za-z0-9_]`. -/
def wordChar (c : Char) : Bool :=
  ('a' ≤ c && c ≤ 'z') || ('A' ≤ c && c ≤ 'Z') || ('0' ≤ c && c ≤ '9') || c = '_'

/-- One anchored attempt of the regex `/\x7b\x7b\.\.\.(\w+)\x7d\x7d/`:
the literal `\x7b\x7b...`, a non-empty greedy word run, then
`\x7d\x7d`. -/
def tryVarAt : List Char → Option String
  | '\x7b' :: '\x7b' :: '.' :: '.' :: '.' :: rest =>
    let run := rest.takeWhile wordChar
    match rest.drop run.length with
    | '\x7d' :: '\x7d' :: _ => if run.isEmpty then none else some ⟨run⟩
    | _ => none
  | _ => none

/-- Embedding of `word.match(/\x7b\x7b\.\.\.(\w+)\x7d\x7d/)` — an unanchored search:
try every start position, left to right. -/
def findVarName : List Char → Option String
  | [] => none
  | c :: rest =>
    match tryVarAt (c :: rest) with
    | some n => some n
    | none => findVarName rest

/-- One iteration of the token loop of `parseTokens`. -/
def tokenOfWord (w : String) : Token :=
  match findVarName w.data with
  | some n => .var n
  | none => .literal w

/-- Embedding of `CommandFramework.parseTokens` as run by the constructor: `none`
models the `throw` on a falsy command (the empty string); a
whitespace-only command yields zero tokens. -/
def parseTokens (command : String) : Option (List Token) :=
  if command = "" then none else some ((jsSplitWs command).map tokenOfWord)

/-- The result object of a successful `match`; `vars` is the source's
`variables` field (a Lean keyword). -/
structure MatchResult where
  matched : Bool
  vars : List (String × List String)
deriving DecidableEq, Repr

/-- JavaScript property assignment `extractedVars[name] = values` on an
object modelled as an insertion-ordered association list. -/
def upsert (m : List (String × List String)) (k : String) (v : List String) :
    List (String × List String) :=
  if m.any (fun p => p.1 = k) then
    m.map (fun p => if p.1 = k then (k, v) else p)
  else
    m ++ [(k, v)]

/-- The token/word walk of `CommandFramework.match` (the `for` loop over
tokens with the `inputIndex` cursor, here the remaining-words list), plus
the final `inputIndex !== inputWords.length` check. -/
def matchTokens : List Token → List String → List (String × List String) →
    Option (List (String × List String))
  | [], inputWords, vars =>
    if inputWords.isEmpty then some vars else none
  | Token.literal v :: ts, inputWords, vars =>
    match inputWords with
    | [] => none
    | w :: ws => if w = v then matchTokens ts ws vars else none
  | Token.var name :: ts, inputWords, vars =>
    if name = "labels" then
      let vals := (inputWords.takeWhile (fun w => w.data.head? = some '~')).map
        (fun w => (⟨w.data.drop 1⟩ : String))
      let rest := inputWords.dropWhile (fun w => w.data.head? = some '~')
      matchTokens ts rest (upsert vars name vals)
    else
      match ts with
      | Token.literal v :: _ =>
        let vals := inputWords.takeWhile (fun w => w ≠ v)
        let rest := inputWords.dropWhile (fun w => w ≠ v)
        matchTokens ts rest (upsert vars name vals)
      | _ =>
        matchTokens ts [] (upsert vars name inputWords)

/-- Embedding of `CommandFramework.match` (named `matchInput` because `match` is a
Lean keyword): `none` is the JavaScript `null`. -/
def matchInput (tokens : List Token) (input : String) : Option MatchResult :=
  if input = "" then
    none
  else
    let inputWords := jsSplitWs input
    if inputWords.isEmpty then
      none
    else
      match matchTokens tokens inputWords [] with
      | some vars => some ⟨true, vars⟩
      | none => none

end CommandFramework

namespace ActionExecutor

/-- A dynamically-typed JavaScript value as it occurs in the
`placeholders` map of `unmarkComment`. -/
inductive JSVal where
  | str (s : String)
  | num (n : Int)
  | boolean (b : Bool)
  | nullv
  | undefined
deriving DecidableEq, Repr

/-- JavaScript truthiness of such a value. -/
def jsTruthy : JSVal → Bool
  | .str s => s ≠ ""
  | .num n => n ≠ 0
  | .boolean b => b
  | .nullv => false
  | .undefined => false

/-- JavaScript string conversion of such a value (as performed when a
`replace` callback result is spliced into the output). -/
def jsValToString : JSVal → String
  | .str s => s
  | .num n => toString n
  | .boolean b => if b then "true" else "false"
  | .nullv => "null"
  | .undefined => "undefined"

/-- Truthiness of an optional string action payload (`if (actions.status)`
etc.): absent or empty is falsy. -/
def optStrTruthy : Option String → Bool
  | none => false
  | some s => s ≠ ""

/-- Truthiness of an optional numeric payload (`if (actions.assignee)`):
absent or `0` is falsy. -/
def optIntTruthy : Option Int → Bool
  | none => false
  | some n => n ≠ 0

/-- Scanning for the lazy group of the regex `/\x7b\x7b(.*?)\x7d\x7d/g`
after an opening `\x7b\x7b`: finds the first `\x7d\x7d`, returning the
(possibly `\x7d`-containing) key characters before it and the characters
after it; fails if a line terminator (not matched by `.`) intervenes or
the string ends first. -/
def scanClose : List Char → Option (List Char × List Char)
  | [] => none
  | [_] => none
  | c1 :: c2 :: rest =>
    if c1 = '\x7d' && c2 = '\x7d' then
      some ([], rest)
    else if c1 = '\n' || c1 = '\r' || c1 = '\u2028' || c1 = '\u2029' then
      none
    else
      (scanClose (c2 :: rest)).map (fun p => (c1 :: p.1, p.2))

/-- The global-replace scan of `template.replace(/\x7b\x7b(.*?)\x7d\x7d/g,
(_, key) => …)` on a character list, with a fuel argument (the initial
list length always suffices, see `jsReplCharsF_irrel`): at a `\x7b\x7b`
whose lazy close is found, splice the callback result and continue after
the `\x7d\x7d`; otherwise copy one character and continue. -/
def jsReplCharsF (repl : String → String) : Nat → List Char → List Char
  | 0, cs => cs
  | _ + 1, [] => []
  | fuel + 1, c :: rest =>
    if c = '\x7b' ∧ rest.head? = some '\x7b' then
      match scanClose rest.tail with
      | some (key, rest') => (repl ⟨key⟩).data ++ jsReplCharsF repl fuel rest'
      | none => c :: jsReplCharsF repl fuel rest
    else
      c :: jsReplCharsF repl fuel rest

/-- Embedding of `s.replace(/\x7b\x7b(.*?)\x7d\x7d/g, (_, key) => repl(key))`. -/
def jsReplaceAll (repl : String → String) (s : String) : String :=
  ⟨jsReplCharsF repl s.data.length s.data⟩

/-- JavaScript `Array.prototype.join(sep)` (structurally recursive so
that concrete templates reduce inside the kernel). -/
def joinSep (sep : String) : List String → String
  | [] => ""
  | [x] => x
  | x :: xs => x ++ sep ++ joinSep sep xs

/-- A user object (`{username}`). -/
structure User where
  username : String
deriving DecidableEq, Repr

/-- A milestone object (`{title}`). -/
structure Milestone where
  title : String
deriving DecidableEq, Repr

/-- An entry of `assignees`/`reviewers`: either a user object or a raw
string; rendering uses `a.username || a` (for a user object with an empty
username the fallback stringifies the object itself). -/
inductive UserRef where
  | user (username : String)
  | str (s : String)
deriving DecidableEq, Repr

/-- The `a.username || a` projection inside a template literal. -/
def userRefName : UserRef → String
  | .user u => if u = "" then "[object Object]" else u
  | .str s => s

/-- The `references` object (`{full}`). -/
structure Refs where
  full : String
deriving DecidableEq, Repr

/-- The `head_pipeline` object (`{status}`). -/
structure Pipeline where
  status : String
deriving DecidableEq, Repr

/-- The resource record as read by the action executor and
`unmarkComment`.  `Option` fields model attributes that may be
absent/undefined on the API payload; `rtype` is the source's
`resource.type` (`type` is reserved in Lean). -/
structure Resource where
  id : Nat
  project_id : Nat
  iid : Nat
  name : String
  labels : List String
  created_at : Option String := none
  updated_at : Option String := none
  closed_at : Option String := none
  merged_at : Option String := none
  state : Option String := none
  author : Option User := none
  assignee : Option User := none
  assignees : Option (List UserRef) := none
  reviewers : Option (List UserRef) := none
  closed_by : Option User := none
  merged_by : Option User := none
  milestone : Option Milestone := none
  upvotes : Option Int := none
  downvotes : Option Int := none
  title : Option String := none
  web_url : Option String := none
  references : Option Refs := none
  rtype : Option String := none
  source_branch : Option String := none
  target_branch : Option String := none
  merge_status : Option String := none
  head_pipeline : Option Pipeline := none
deriving DecidableEq, Repr

/-- Lifting an optional string field into its JavaScript value. -/
def jsOfOptStr : Option String → JSVal
  | some s => .str s
  | none => .undefined

/-- The fallback of the `type` placeholder:
`resource.type || (resource.merge_status !== undefined ? 'merge_request'
: 'issue')`. -/
def typeFallback (r : Resource) : JSVal :=
  .str (if r.merge_status.isSome then "merge_request" else "issue")

/-- The `placeholders` object literal of `unmarkComment`, as a key lookup
(own properties only; the JavaScript prototype chain is not modelled).
Unknown keys read as `undefined`. -/
def placeholdersOf (r : Resource) (key : String) : JSVal :=
  if key = "created_at" then jsOfOptStr r.created_at
  else if key = "updated_at" then jsOfOptStr r.updated_at
  else if key = "closed_at" then jsOfOptStr r.closed_at
  else if key = "merged_at" then jsOfOptStr r.merged_at
  else if key = "state" then jsOfOptStr r.state
  else if key = "author" then
    .str (match r.author with | some u => "@" ++ u.username | none => "")
  else if key = "assignee" then
    match r.assignee with | some u => .str ("@" ++ u.username) | none => .nullv
  else if key = "assignees" then
    match r.assignees with
    | some us => .str (joinSep ", " (us.map (fun a => "@" ++ userRefName a)))
    | none => .nullv
  else if key = "reviewers" then
    match r.reviewers with
    | some us => .str (joinSep ", " (us.map (fun a => "@" ++ userRefName a)))
    | none => .nullv
  else if key = "closed_by" then
    match r.closed_by with | some u => .str ("@" ++ u.username) | none => .nullv
  else if key = "merged_by" then
    match r.merged_by with | some u => .str ("@" ++ u.username) | none => .nullv
  else if key = "milestone" then
    match r.milestone with | some m => .str m.title | none => .nullv
  else if key = "labels" then
    .str (joinSep ", " (r.labels.map (fun l => "~" ++ l)))
  else if key = "upvotes" then
    match r.upvotes with | some n => .num n | none => .undefined
  else if key = "downvotes" then
    match r.downvotes with | some n => .num n | none => .undefined
  else if key = "title" then jsOfOptStr r.title
  else if key = "web_url" then jsOfOptStr r.web_url
  else if key = "full_reference" then
    .str (match r.references with | some refs => refs.full | none => "")
  else if key = "type" then
    match r.rtype with
    | some t => if t = "" then typeFallback r else .str t
    | none => typeFallback r
  else if key = "source_branch" then jsOfOptStr r.source_branch
  else if key = "target_branch" then jsOfOptStr r.target_branch
  else if key = "merge_status" then jsOfOptStr r.merge_status
  else if key = "pipeline_status" then
    match r.head_pipeline with | some p => .str p.status | none => .nullv
  else .undefined

/-- The own keys of the `placeholders` object literal. -/
def placeholderKeys : List String :=
  ["created_at", "updated_at", "closed_at", "merged_at", "state", "author",
   "assignee", "assignees", "reviewers", "closed_by", "merged_by", "milestone",
   "labels", "upvotes", "downvotes", "title", "web_url", "full_reference",
   "type", "source_branch", "target_branch", "merge_status", "pipeline_status"]

/-- The replace callback `(_, key) => placeholders[key] || ''`: a truthy
value is spliced in (stringified), any falsy value — missing, `null`,
`undefined`, `0`, `''`, `false` — becomes the empty string. -/
def placeholderRepl (r : Resource) (key : String) : String :=
  let v := placeholdersOf r key
  if jsTruthy v then jsValToString v else ""

/-- Embedding of `unmarkComment(resource, commentTemplate)`. -/
def unmarkComment (r : Resource) (commentTemplate : String) : String :=
  jsReplaceAll (placeholderRepl r) commentTemplate

/-- One remote write issued through the GitLab client; each constructor
records the client method and its arguments. -/
inductive RemoteCall where
  | editLabels (resourceType : String) (project_id iid : Nat) (labels : List String)
  | editState (resourceType : String) (project_id iid : Nat) (stateEvent : Option String)
  | editAssignee (resourceType : String) (project_id iid : Nat) (assignee_id : Int)
  | editReviewers (project_id iid : Nat) (reviewer_ids : List Int)
  | noteCreate (resourceType : String) (project_id iid : Nat) (body : String)
      (options : Option (Bool × Option String))
  | moveIssue (project_id iid : Nat) (targetProjectPath : String)
  | mergeCall (project_id iid : Nat) (when_pipeline_succeeds : Bool)
  | cancelOnPipelineSuccess (project_id iid : Nat)
  | branchRemove (project_id : Nat) (name : String)
deriving DecidableEq, Repr

/-- The clients `getApiClient`/`getNotesApiClient` succeed exactly for these resource
types; for any other type they throw `Unsupported resource type` before
any call is issued (the exception value itself is outside the embedded
fragment — such a branch is modelled as issuing no call). -/
def apiClientKnown (resourceType : String) : Bool :=
  resourceType = "issue" || resourceType = "merge_request"

/-- A merge action payload. -/
structure MergeOptions where
  cancel : Bool := false
  when_pipeline_succeeds : Bool := false
deriving DecidableEq, Repr

/-- A reviewer payload: scalar or list
(`Array.isArray(reviewerIds) ? reviewerIds : [reviewerIds]`). -/
inductive ReviewerIds where
  | scalar (rid : Int)
  | list (ids : List Int)
deriving DecidableEq, Repr

/-- Truthiness of `actions.reviewer`: a scalar `0` is falsy, an array is
always truthy. -/
def reviewerTruthy : Option ReviewerIds → Bool
  | none => false
  | some (.scalar rid) => rid ≠ 0
  | some (.list _) => true

/-- An action map (`rule.actions`). -/
structure Actions where
  labels : Option (List String) := none
  remove_labels : Option (List String) := none
  status : Option String := none
  mention : Option (List String) := none
  move : Option String := none
  comment : Option String := none
  comment_type : Option String := none
  comment_internal : Option Bool := none
  delete : Option Bool := none
  assignee : Option Int := none
  reviewer : Option ReviewerIds := none
  merge : Option MergeOptions := none
  extension : Option String := none
deriving DecidableEq, Repr

/-- Embedding of `ActionExecutor.addLabels`: mutates `resource.labels` by plain spread
concatenation, then (live only) sends the full resulting list via
`apiClient.edit`.  In live mode the source returns the API response; the
edit is record-replacing (spec §4.3/§6), so the response is modelled as
the locally mutated resource. -/
def addLabels (r : Resource) (labels : List String) (resourceType : String)
    (dryRun : Bool) : Resource × List RemoteCall :=
  let r' := { r with labels := r.labels ++ labels }
  if !dryRun then
    if apiClientKnown resourceType then
      (r', [.editLabels resourceType r.project_id r.iid r'.labels])
    else
      (r', [])
  else
    (r', [])

/-- Embedding of `ActionExecutor.removeLabels`:
`resource.labels = resource.labels.filter(x => !labels.includes(x))`. -/
def removeLabels (r : Resource) (labels : List String) (resourceType : String)
    (dryRun : Bool) : Resource × List RemoteCall :=
  let r' := { r with labels := r.labels.filter (fun x => !labels.contains x) }
  if !dryRun then
    if apiClientKnown resourceType then
      (r', [.editLabels resourceType r.project_id r.iid r'.labels])
    else
      (r', [])
  else
    (r', [])

/-- Embedding of `ActionExecutor.mergeMergeRequest`: the `cancel` flag routes to
`cancelOnPipelineSuccess`, otherwise `merge` with the given options. -/
def mergeMergeRequest (r : Resource) (mergeOptions : MergeOptions) (dryRun : Bool) :
    Resource × List RemoteCall :=
  if !dryRun then
    if mergeOptions.cancel then
      (r, [.cancelOnPipelineSuccess r.project_id r.iid])
    else
      (r, [.mergeCall r.project_id r.iid mergeOptions.when_pipeline_succeeds])
  else
    (r, [])

/-- Embedding of `ActionExecutor.changeStatus`: issues translate any status into a
`stateEvent` edit; merge requests special-case `merge` (routed through
`mergeMergeRequest` with `\x7bwhen_pipeline_succeeds: false\x7d`) and send
an empty-params edit for an unrecognized status. -/
def changeStatus (r : Resource) (status : String) (resourceType : String)
    (dryRun : Bool) : Resource × List RemoteCall :=
  if !dryRun then
    if resourceType = "issue" then
      (r, [.editState resourceType r.project_id r.iid (some status)])
    else if resourceType = "merge_request" then
      if status = "close" || status = "reopen" then
        (r, [.editState resourceType r.project_id r.iid (some status)])
      else if status = "merge" then
        mergeMergeRequest r { when_pipeline_succeeds := false } dryRun
      else
        (r, [.editState resourceType r.project_id r.iid none])
    else
      (r, [])
  else
    (r, [])

/-- Embedding of `ActionExecutor.assignResource`. -/
def assignResource (r : Resource) (assigneeId : Int) (resourceType : String)
    (dryRun : Bool) : Resource × List RemoteCall :=
  if !dryRun then
    if apiClientKnown resourceType then
      (r, [.editAssignee resourceType r.project_id r.iid assigneeId])
    else
      (r, [])
  else
    (r, [])

/-- Embedding of `ActionExecutor.assignReviewer`. -/
def assignReviewer (r : Resource) (reviewerIds : ReviewerIds) (dryRun : Bool) :
    Resource × List RemoteCall :=
  if !dryRun then
    (r, [.editReviewers r.project_id r.iid
      (match reviewerIds with | .list ids => ids | .scalar rid => [rid])])
  else
    (r, [])

/-- Embedding of `ActionExecutor.mentionUsers`: a single note whose body is the
space-joined `@handle` list. -/
def mentionUsers (r : Resource) (users : List String) (resourceType : String)
    (dryRun : Bool) : Resource × List RemoteCall :=
  let mentionText := joinSep " " (users.map (fun user => "@" ++ user))
  if !dryRun then
    if apiClientKnown resourceType then
      (r, [.noteCreate resourceType r.project_id r.iid mentionText none])
    else
      (r, [])
  else
    (r, [])

/-- Embedding of `ActionExecutor.moveResource`. -/
def moveResource (r : Resource) (targetProjectPath : String) (dryRun : Bool) :
    Resource × List RemoteCall :=
  if !dryRun then
    (r, [.moveIssue r.project_id r.iid targetProjectPath])
  else
    (r, [])

/-- Embedding of `ActionExecutor.addComment`: renders the template (in every mode),
then (live only) posts it with the `internal` flag
(`comment_internal || false`) and, for issues with a truthy
`comment_type`, the note type. -/
def addComment (r : Resource) (acts : Actions) (resourceType : String)
    (dryRun : Bool) : Resource × List RemoteCall :=
  let comment := unmarkComment r (acts.comment.getD "")
  if !dryRun then
    if apiClientKnown resourceType then
      let internal := acts.comment_internal.getD false
      let ctype :=
        if resourceType = "issue" && optStrTruthy acts.comment_type then
          acts.comment_type
        else
          none
      (r, [.noteCreate resourceType r.project_id r.iid comment (some (internal, ctype))])
    else
      (r, [])
  else
    (r, [])

/-- Embedding of `ActionExecutor.deleteBranch`. -/
def deleteBranch (r : Resource) (dryRun : Bool) : Resource × List RemoteCall :=
  if !dryRun then
    (r, [.branchRemove r.project_id r.name])
  else
    (r, [])

/-- One gated, resource-reassigning step of the `execute` action chain
(`resource = await this.someAction(resource, …)`). -/
def step (gate : Bool) (f : Resource → Resource × List RemoteCall)
    (s : Resource × List RemoteCall) : Resource × List RemoteCall :=
  if gate then
    let p := f s.1
    (p.1, s.2 ++ p.2)
  else
    s

/-- A gated step whose result is not assigned back (`await
this.addComment(…)` / `await this.deleteBranch(…)`). -/
def stepKeep (gate : Bool) (f : Resource → Resource × List RemoteCall)
    (s : Resource × List RemoteCall) : Resource × List RemoteCall :=
  if gate then
    (s.1, s.2 ++ (f s.1).2)
  else
    s

/-- The non-extension part of the per-resource body of
`ActionExecutor.execute`, in source order with the source's truthiness
gates and resource-type gates. -/
def runActions (acts : Actions) (resourceType : String) (dryRun : Bool)
    (r0 : Resource) : Resource × List RemoteCall :=
  (r0, ([] : List RemoteCall))
  |> step acts.labels.isSome
      (fun r => addLabels r (acts.labels.getD []) resourceType dryRun)
  |> step acts.remove_labels.isSome
      (fun r => removeLabels r (acts.remove_labels.getD []) resourceType dryRun)
  |> step (optStrTruthy acts.status)
      (fun r => changeStatus r (acts.status.getD "") resourceType dryRun)
  |> step acts.mention.isSome
      (fun r => mentionUsers r (acts.mention.getD []) resourceType dryRun)
  |> step (optStrTruthy acts.move && resourceType == "issue")
      (fun r => moveResource r (acts.move.getD "") dryRun)
  |> stepKeep (optStrTruthy acts.comment)
      (fun r => addComment r acts resourceType dryRun)
  |> stepKeep (acts.delete.getD false && resourceType == "branch")
      (fun r => deleteBranch r dryRun)
  |> step (optIntTruthy acts.assignee)
      (fun r => assignResource r (acts.assignee.getD 0) resourceType dryRun)
  |> step (reviewerTruthy acts.reviewer && resourceType == "merge_request")
      (fun r => assignReviewer r (acts.reviewer.getD (.list [])) dryRun)
  |> step (acts.merge.isSome && resourceType == "merge_request")
      (fun r => mergeMergeRequest r (acts.merge.getD {}) dryRun)

/-- What one loop iteration of `execute` produced for its resource: the
threaded local resource, the remote calls issued, and the extension
invocations `(name, resource id)` dispatched. -/
structure ResourceTrace where
  resource : Resource
  calls : List RemoteCall
  extRuns : List (String × Nat)
deriving DecidableEq, Repr

/-- Embedding of `ActionExecutor.registerExtension`: throws (`none`) when the class or
alias is falsy, otherwise adds the alias to the instance cache. -/
def registerExtension (registry : List String) (hasClass : Bool)
    (aliasName : String) : Option (List String) :=
  if !hasClass || aliasName = "" then none else some (registry ++ [aliasName])

/-- The full per-resource body of `ActionExecutor.execute` including the
trailing extension dispatch.  The boolean is the early `return` of the
registered-alias branch, which aborts the whole resource loop; the
dynamic-import branch runs the module and falls through.  Extension
modules are caller-supplied collaborators: their own effects are opaque
and recorded only as the `extRuns` invocation. -/
def execRes (registry : List String) (acts : Actions) (r0 : Resource)
    (resourceType : String) (dryRun : Bool) : ResourceTrace × Bool :=
  let s := runActions acts resourceType dryRun r0
  if optStrTruthy acts.extension then
    let a := acts.extension.getD ""
    if registry.contains a then
      (⟨s.1, s.2, [(a, s.1.id)]⟩, true)
    else
      (⟨s.1, s.2, [(a, s.1.id)]⟩, false)
  else
    (⟨s.1, s.2, []⟩, false)

/-- Embedding of `ActionExecutor.execute`: iterates the resources in order; a
registered-alias extension dispatch returns from the whole call. -/
def execute (registry : List String) (acts : Actions) :
    List Resource → String → Bool → List ResourceTrace
  | [], _, _ => []
  | r :: rest, resourceType, dryRun =>
    let p := execRes registry acts r resourceType dryRun
    if p.2 then [p.1] else p.1 :: execute registry acts rest resourceType dryRun

/-- A well-formed placeholder key: no braces and no line terminators, so
that the lazy close after a `\x7b\x7b` is found exactly at the key's end
(every key of `placeholderKeys` qualifies). -/
def plainKey (key : String) : Bool :=
  key.data.all
    (fun c => c ≠ '\x7b' && c ≠ '\x7d' && c ≠ '\n' && c ≠ '\r' && c ≠ '\u2028' && c ≠ '\u2029')

/-- Test fixture: a resource authored by `alice`. -/
def aliceResource : Resource :=
  { id := 7, project_id := 1, iid := 3, name := "", labels := [],
    author := some { username := "alice" } }

/-- Test fixture: the author's username itself looks like a placeholder
and `title` is `boom`; non-recursive substitution must keep the inserted
text verbatim instead of resolving it to `@boom`. -/
def trickResource : Resource :=
  { id := 8, project_id := 1, iid := 4, name := "", labels := [],
    author := some { username := "\x7b\x7btitle\x7d\x7d" }, title := some "boom" }

/-- Test fixture: a resource with zero upvotes. -/
def zeroVotesResource : Resource :=
  { id := 9, project_id := 1, iid := 5, name := "", labels := [], upvotes := some 0 }

end ActionExecutor

/-! ## Helper lemmas -/

theorem string_eq_of_data {a b : String} (h : a.data = b.data) : a = b :=
  String.ext h

theorem scanClose_sound :
    ∀ l k r, ActionExecutor.scanClose l = some (k, r) → l = k ++ '\x7d' :: '\x7d' :: r := by
  intro l
  induction l with
  | nil => intro k r h; simp [ActionExecutor.scanClose] at h
  | cons c1 tl ih =>
    intro k r h
    cases tl with
    | nil => simp [ActionExecutor.scanClose] at h
    | cons c2 rest =>
      simp only [ActionExecutor.scanClose] at h
      split at h
      · rename_i hcond
        simp only [Bool.and_eq_true, decide_eq_true_eq] at hcond
        obtain ⟨hk, hr⟩ := Prod.mk.injEq .. ▸ Option.some.injEq .. ▸ h
        subst hk
        subst hr
        simp [hcond.1, hcond.2]
      · split at h
        · exact absurd h (by simp)
        · rw [Option.map_eq_some'] at h
          obtain ⟨⟨k', r'⟩, hsc, heq⟩ := h
          obtain ⟨hk, hr⟩ := Prod.mk.injEq .. ▸ heq
          subst hk
          subst hr
          simpa using ih k' r' hsc

theorem scanClose_append (key rest : List Char)
    (hk : ∀ c ∈ key, c ≠ '\x7d' ∧ c ≠ '\n' ∧ c ≠ '\r' ∧ c ≠ '\u2028' ∧ c ≠ '\u2029') :
    ActionExecutor.scanClose (key ++ '\x7d' :: '\x7d' :: rest) = some (key, rest) := by
  induction key with
  | nil => simp [ActionExecutor.scanClose]
  | cons c cs ih =>
    have hc := hk c (List.mem_cons_self c cs)
    have hcs : ∀ x ∈ cs, x ≠ '\x7d' ∧ x ≠ '\n' ∧ x ≠ '\r' ∧ x ≠ ' ' ∧ x ≠ ' ' :=
      fun x hx => hk x (List.mem_cons_of_mem c hx)
    have ihcs := ih hcs
    rcases cs with _ | ⟨c2, cs'⟩
    · simp [ActionExecutor.scanClose, hc.1, hc.2.1, hc.2.2.1, hc.2.2.2.1, hc.2.2.2.2]
    · simp only [List.cons_append] at ihcs ⊢
      simp [ActionExecutor.scanClose, hc.1, hc.2.1, hc.2.2.1, hc.2.2.2.1, hc.2.2.2.2, ihcs]

theorem jsReplCharsF_irrel (repl : String → String) :
    ∀ f1 f2 cs, cs.length ≤ f1 → cs.length ≤ f2 →
      ActionExecutor.jsReplCharsF repl f1 cs = ActionExecutor.jsReplCharsF repl f2 cs := by
  intro f1
  induction f1 with
  | zero =>
    intro f2 cs h1 _
    have : cs = [] := List.eq_nil_of_length_eq_zero (Nat.le_zero.mp h1)
    subst this
    cases f2 <;> rfl
  | succ f ihf =>
    intro f2 cs h1 h2
    cases cs with
    | nil => cases f2 <;> rfl
    | cons c rest =>
      cases f2 with
      | zero => simp at h2
      | succ f2' =>
        by_cases hbrace : c = '\x7b' ∧ rest.head? = some '\x7b'
        · cases hscan : ActionExecutor.scanClose rest.tail with
          | none =>
            simp only [ActionExecutor.jsReplCharsF]
            rw [if_pos hbrace, if_pos hbrace]
            simp only [hscan]
            rw [ihf f2' rest (by simpa using h1) (by simpa using h2)]
          | some p =>
            obtain ⟨k, r'⟩ := p
            have hs := scanClose_sound rest.tail k r' hscan
            have hlen : rest.tail.length = k.length + (r'.length + 2) := by
              rw [hs]; simp [List.length_append]
            have hrest : rest.length = rest.tail.length + 1 := by
              cases rest with
              | nil => simp at hbrace
              | cons x xs => simp
            simp only [ActionExecutor.jsReplCharsF]
            rw [if_pos hbrace, if_pos hbrace]
            simp only [hscan]
            congr 1
            refine ihf f2' r' ?_ ?_ <;> (simp only [List.length_cons] at h1 h2; omega)
        · simp only [ActionExecutor.jsReplCharsF]
          rw [if_neg hbrace, if_neg hbrace]
          rw [ihf f2' rest (by simpa using h1) (by simpa using h2)]

theorem plainKey_chars {key : String} (h : ActionExecutor.plainKey key = true) :
    ∀ c ∈ key.data, c ≠ '\x7d' ∧ c ≠ '\n' ∧ c ≠ '\r' ∧ c ≠ '\u2028' ∧ c ≠ '\u2029' := by
  intro c hc
  have := (List.all_eq_true.mp h) c hc
  simp only [Bool.and_eq_true, decide_eq_true_eq] at this
  exact ⟨this.1.1.1.1.2, this.1.1.1.2, this.1.1.2, this.1.2, this.2⟩

theorem jsReplaceAll_head (repl : String → String) (key rest : String)
    (hk : ActionExecutor.plainKey key = true) :
    ActionExecutor.jsReplaceAll repl ("\x7b\x7b" ++ key ++ "\x7d\x7d" ++ rest)
      = repl key ++ ActionExecutor.jsReplaceAll repl rest := by
  have hdata : ("\x7b\x7b" ++ key ++ "\x7d\x7d" ++ rest).data
      = '\x7b' :: '\x7b' :: (key.data ++ '\x7d' :: '\x7d' :: rest.data) := by
    simp [String.data_append]
  apply string_eq_of_data
  rw [ActionExecutor.jsReplaceAll, hdata]
  have hscan := scanClose_append key.data rest.data (plainKey_chars hk)
  simp only [ActionExecutor.jsReplCharsF, List.length_cons, List.head?_cons, List.tail_cons,
    and_self, if_true, hscan]
  rw [String.data_append, ActionExecutor.jsReplaceAll]
  have hmk : (⟨key.data⟩ : String) = key := by cases key; rfl
  rw [hmk]
  congr 1
  exact jsReplCharsF_irrel repl _ _ rest.data (by simp [List.length_append]; omega) le_rfl

theorem placeholdersOf_not_mem (r : ActionExecutor.Resource) (key : String)
    (h : key ∉ ActionExecutor.placeholderKeys) :
    ActionExecutor.placeholdersOf r key = .undefined := by
  simp only [ActionExecutor.placeholderKeys, List.mem_cons, List.not_mem_nil, or_false,
    not_or] at h
  obtain ⟨h1, h2, h3, h4, h5, h6, h7, h8, h9, h10, h11, h12, h13, h14, h15, h16, h17, h18,
    h19, h20, h21, h22, h23⟩ := h
  unfold ActionExecutor.placeholdersOf
  rw [if_neg h1, if_neg h2, if_neg h3, if_neg h4, if_neg h5, if_neg h6, if_neg h7, if_neg h8,
    if_neg h9, if_neg h10, if_neg h11, if_neg h12, if_neg h13, if_neg h14, if_neg h15,
    if_neg h16, if_neg h17, if_neg h18, if_neg h19, if_neg h20, if_neg h21, if_neg h22,
    if_neg h23]

theorem unmark_placeholder_elim (r : ActionExecutor.Resource) (key rest : String)
    (hkey : ActionExecutor.plainKey key = true)
    (hfalsy : ActionExecutor.jsTruthy (ActionExecutor.placeholdersOf r key) = false) :
    ActionExecutor.unmarkComment r ("\x7b\x7b" ++ key ++ "\x7d\x7d" ++ rest)
      = ActionExecutor.unmarkComment r rest := by
  unfold ActionExecutor.unmarkComment
  rw [jsReplaceAll_head _ _ _ hkey]
  have hrepl : ActionExecutor.placeholderRepl r key = "" := by
    unfold ActionExecutor.placeholderRepl
    rw [if_neg]
    simp [hfalsy]
  rw [hrepl]
  apply string_eq_of_data
  simp [String.data_append]

theorem jsReplCharsF_no_brace (repl : String → String) :
    ∀ fuel cs, (∀ c ∈ cs, c ≠ '\x7b') →
      ActionExecutor.jsReplCharsF repl fuel cs = cs := by
  intro fuel
  induction fuel with
  | zero => intro cs _; rfl
  | succ f ih =>
    intro cs h
    cases cs with
    | nil => rfl
    | cons c rest =>
      have hc : c ≠ '\x7b' := h c (List.mem_cons_self c rest)
      have hcond : ¬(c = '\x7b' ∧ rest.head? = some '\x7b') := fun hh => hc hh.1
      simp only [ActionExecutor.jsReplCharsF]
      rw [if_neg hcond, ih rest (fun x hx => h x (List.mem_cons_of_mem c hx))]

theorem jsReplaceAll_no_brace (repl : String → String) (t : String)
    (h : ∀ c ∈ t.data, c ≠ '\x7b') :
    ActionExecutor.jsReplaceAll repl t = t :=
  string_eq_of_data (jsReplCharsF_no_brace repl t.data.length t.data h)

/-! ## Claim theorems -/

/-- C1: `evaluateLabelsCondition` is claimed to require, for a list with
both a brace-group and a plain entry, that each group have an expansion
present AND that each plain entry be present.  The code violates the
second half: after the OR-group loop, the always-false filter
`x => !x === label` has emptied the required list, so the plain entry
`bug` is never checked — on labels `[priorityhigh]` with required list
`[priority\x7bhigh,low\x7d, bug]` the code returns `true` while the
spec-modelled semantics (`specLabelsCondition`) returns `false`. -/
theorem labels_orgroup_skips_plain_entries :
    PolicyEngine.evaluateLabelsCondition [.str "priorityhigh"]
      ["priority\x7bhigh,low\x7d", "bug"] = true
    ∧ PolicyEngine.specLabelsCondition [.str "priorityhigh"]
      ["priority\x7bhigh,low\x7d", "bug"] = false :=
  ⟨rfl, rfl⟩

/-- C3 counterexample: adding the already-present label `bug` produces
`[bug, bug]` — a duplicate — so the claimed no-duplicates invariant fails
on the code. -/
theorem addLabels_duplicate_counterexample :
    ¬ ((ActionExecutor.addLabels
        { id := 1, project_id := 1, iid := 1, name := "", labels := ["bug"] }
        ["bug"] "issue" true).1.labels.Nodup) := by
  decide

/-- C3 (amended): after `addLabels` the resource's labels are exactly the
previous labels with the given list appended (no deduplication, in either
mode); consequently the result is duplicate-free precisely when the
previous labels and the added list are each duplicate-free and share no
label. -/
theorem addLabels_appends_without_dedup (r : ActionExecutor.Resource) (ls : List String)
    (resourceType : String) (dryRun : Bool) :
    (ActionExecutor.addLabels r ls resourceType dryRun).1.labels = r.labels ++ ls
    ∧ ((ActionExecutor.addLabels r ls resourceType dryRun).1.labels.Nodup ↔
        r.labels.Nodup ∧ ls.Nodup ∧ r.labels.Disjoint ls) := by
  have h : (ActionExecutor.addLabels r ls resourceType dryRun).1.labels = r.labels ++ ls := by
    cases dryRun with
    | true => rfl
    | false =>
      cases hrt : ActionExecutor.apiClientKnown resourceType <;>
        simp [ActionExecutor.addLabels, hrt]
  exact ⟨h, by rw [h]; exact List.nodup_append⟩

/-- C7: for every resource whose `author.username` is `alice`,
substituting the template renders `@alice please review`; a placeholder
whose key is not among the `placeholders` map's keys is replaced by the
empty string (for every resource and template tail); and substitution is
non-recursive — a substituted value that itself looks like a placeholder
is kept verbatim. -/
theorem comment_template_substitution :
    (∀ r : ActionExecutor.Resource, r.author = some { username := "alice" } →
        ActionExecutor.unmarkComment r "\x7b\x7bauthor\x7d\x7d please review"
          = "@alice please review")
    ∧ (∀ r key rest, ActionExecutor.plainKey key = true →
        key ∉ ActionExecutor.placeholderKeys →
        ActionExecutor.unmarkComment r ("\x7b\x7b" ++ key ++ "\x7d\x7d" ++ rest)
          = ActionExecutor.unmarkComment r rest)
    ∧ ActionExecutor.unmarkComment ActionExecutor.trickResource "\x7b\x7bauthor\x7d\x7d"
      = "@\x7b\x7btitle\x7d\x7d" := by
  refine ⟨?_, ?_, rfl⟩
  · intro r h
    have hsplit : ("\x7b\x7bauthor\x7d\x7d please review" : String)
        = "\x7b\x7b" ++ "author" ++ "\x7d\x7d" ++ " please review" := by decide
    rw [ActionExecutor.unmarkComment, hsplit,
      jsReplaceAll_head (ActionExecutor.placeholderRepl r) "author" " please review"
        (by decide)]
    have hph : ActionExecutor.placeholdersOf r "author" = .str "@alice" := by
      simp [ActionExecutor.placeholdersOf, h]
    have hrepl : ActionExecutor.placeholderRepl r "author" = "@alice" := by
      simp [ActionExecutor.placeholderRepl, hph, ActionExecutor.jsTruthy,
        ActionExecutor.jsValToString]
    rw [hrepl, jsReplaceAll_no_brace (ActionExecutor.placeholderRepl r) " please review"
      (by decide)]
    decide
  · intro r key rest hk hmem
    refine unmark_placeholder_elim r key rest hk ?_
    rw [placeholdersOf_not_mem r key hmem]
    rfl

/-- C7 witness: the theorem applied at the `alice` fixture (discharging
the author hypothesis) and at the concrete unknown key `nonexistent`. -/
theorem comment_template_substitution_witness :
    ActionExecutor.unmarkComment ActionExecutor.aliceResource
      "\x7b\x7bauthor\x7d\x7d please review" = "@alice please review"
    ∧ ActionExecutor.unmarkComment ActionExecutor.aliceResource
        ("\x7b\x7b" ++ "nonexistent" ++ "\x7d\x7d" ++ "Z")
      = ActionExecutor.unmarkComment ActionExecutor.aliceResource "Z" :=
  ⟨comment_template_substitution.1 ActionExecutor.aliceResource rfl,
    comment_template_substitution.2.1 ActionExecutor.aliceResource "nonexistent" "Z"
      (by decide) (by decide)⟩

/-- C10: the replace callback is `placeholders[key] || ''`, so every
placeholder whose mapped value is falsy — `undefined`, `null`, the number
`0`, the empty string, or `false` — renders as the empty string; in
particular a resource with `upvotes = 0` renders `\x7b\x7bupvotes\x7d\x7d`
as empty. -/
theorem falsy_placeholder_renders_empty :
    (∀ r key rest, ActionExecutor.plainKey key = true →
        ActionExecutor.jsTruthy (ActionExecutor.placeholdersOf r key) = false →
        ActionExecutor.unmarkComment r ("\x7b\x7b" ++ key ++ "\x7d\x7d" ++ rest)
          = ActionExecutor.unmarkComment r rest)
    ∧ ActionExecutor.jsTruthy
        (ActionExecutor.placeholdersOf ActionExecutor.zeroVotesResource "upvotes") = false
    ∧ ActionExecutor.unmarkComment ActionExecutor.zeroVotesResource
        "\x7b\x7bupvotes\x7d\x7d up" = " up"
    ∧ ActionExecutor.jsTruthy (.num 0) = false
    ∧ ActionExecutor.jsTruthy (.str "") = false
    ∧ ActionExecutor.jsTruthy (.boolean false) = false
    ∧ ActionExecutor.jsTruthy .nullv = false
    ∧ ActionExecutor.jsTruthy .undefined = false :=
  ⟨fun r key rest hk hf => unmark_placeholder_elim r key rest hk hf,
    rfl, rfl, rfl, rfl, rfl, rfl, rfl⟩

/-- C10 witness: the theorem applied at the zero-upvotes fixture and key
`upvotes` (whose mapped value is the falsy number `0`). -/
theorem falsy_placeholder_renders_empty_witness :
    ActionExecutor.unmarkComment ActionExecutor.zeroVotesResource
      ("\x7b\x7b" ++ "upvotes" ++ "\x7d\x7d" ++ " up")
      = ActionExecutor.unmarkComment ActionExecutor.zeroVotesResource " up" :=
  falsy_placeholder_renders_empty.1 ActionExecutor.zeroVotesResource "upvotes" " up"
    (by decide) (by decide)

/-- C4: the date condition is false when the attribute is missing; given
the unit difference `d` computed by the dispatched `date-fns` function,
`older_than` holds iff `d ≥ interval` and `newer_than` iff
`d ≤ interval`; an unrecognized `interval_type` or `condition` yields
false; and on a linear timeline, `updated_at = now − 6 days` with
`older_than`/`days` holds for interval 5 and fails for interval 7. -/
theorem date_condition_semantics :
    (∀ fns now cfg, PolicyEngine.evaluateDateCondition fns now none cfg = false)
    ∧ (∀ fns now t cfg d, PolicyEngine.unitDiff fns cfg.interval_type now t = some d →
        (cfg.condition = "older_than" →
          (PolicyEngine.evaluateDateCondition fns now (some t) cfg = true ↔ cfg.interval ≤ d))
        ∧ (cfg.condition = "newer_than" →
          (PolicyEngine.evaluateDateCondition fns now (some t) cfg = true ↔ d ≤ cfg.interval))
        ∧ (cfg.condition ≠ "older_than" → cfg.condition ≠ "newer_than" →
            PolicyEngine.evaluateDateCondition fns now (some t) cfg = false))
    ∧ (∀ fns now t cfg,
        cfg.interval_type ∉ ["minutes", "hours", "days", "weeks", "months", "years"] →
        PolicyEngine.evaluateDateCondition fns now (some t) cfg = false)
    ∧ (∀ now : Int,
        PolicyEngine.evaluateDateCondition PolicyEngine.linearDiffFns now
          (some (now - 6 * 86400000))
          { attr := "updated_at", condition := "older_than",
            interval_type := "days", interval := 5 } = true
        ∧ PolicyEngine.evaluateDateCondition PolicyEngine.linearDiffFns now
          (some (now - 6 * 86400000))
          { attr := "updated_at", condition := "older_than",
            interval_type := "days", interval := 7 } = false) := by
  refine ⟨fun fns now cfg => rfl, ?_, ?_, ?_⟩
  · intro fns now t cfg d hd
    refine ⟨?_, ?_, ?_⟩
    · intro hc
      simp [PolicyEngine.evaluateDateCondition, hd, hc, ge_iff_le]
    · intro hc
      simp [PolicyEngine.evaluateDateCondition, hd, hc]
    · intro hc1 hc2
      simp [PolicyEngine.evaluateDateCondition, hd, hc1, hc2]
  · intro fns now t cfg hmem
    simp only [List.mem_cons, List.not_mem_nil, or_false, not_or] at hmem
    obtain ⟨m1, m2, m3, m4, m5, m6⟩ := hmem
    simp [PolicyEngine.evaluateDateCondition, PolicyEngine.unitDiff, m1, m2, m3, m4, m5, m6]
  · intro now
    have e : now - (now - 6 * 86400000) = 6 * 86400000 := by ring
    constructor <;>
      · simp [PolicyEngine.evaluateDateCondition, PolicyEngine.unitDiff,
          PolicyEngine.linearDiffFns, e]
        decide

/-- C4 witness: the theorem's iff applied at a concrete one-day-old
timestamp with threshold 1. -/
theorem date_condition_semantics_witness :
    PolicyEngine.evaluateDateCondition PolicyEngine.linearDiffFns 86400000 (some 0)
      { attr := "updated_at", condition := "older_than",
        interval_type := "days", interval := 1 } = true ↔ (1 : Int) ≤ 1 :=
  (date_condition_semantics.2.1 PolicyEngine.linearDiffFns 86400000 0
    { attr := "updated_at", condition := "older_than",
      interval_type := "days", interval := 1 } 1 (by decide)).1 rfl

/-- C5: the pattern `labels \x7b\x7b...labels\x7d\x7d` parses into a
literal and a variable token; matching `labels ~bug ~urgent` strips the
markers and captures `[bug, urgent]`; matching `labels bug urgent` fails
because the `labels` variable consumes only `~`-marked words and the walk
must consume every input word — with leftover words the match is null. -/
theorem command_match_labels_pattern :
    CommandFramework.parseTokens "labels \x7b\x7b...labels\x7d\x7d"
      = some [CommandFramework.Token.literal "labels", CommandFramework.Token.var "labels"]
    ∧ CommandFramework.matchInput
        [CommandFramework.Token.literal "labels", CommandFramework.Token.var "labels"]
        "labels ~bug ~urgent"
      = some { matched := true, vars := [("labels", ["bug", "urgent"])] }
    ∧ CommandFramework.matchInput
        [CommandFramework.Token.literal "labels", CommandFramework.Token.var "labels"]
        "labels bug urgent" = none
    ∧ (∀ inputWords vars, inputWords ≠ [] →
        CommandFramework.matchTokens [] inputWords vars = none) := by
  refine ⟨rfl, rfl, rfl, ?_⟩
  intro ws vars hne
  cases ws with
  | nil => exact absurd rfl hne
  | cons w ws' => rfl

/-- C5 witness: the leftover-words conjunct applied at a concrete
one-word remainder. -/
theorem command_match_labels_pattern_witness :
    CommandFramework.matchTokens [] ["x"] [] = none :=
  command_match_labels_pattern.2.2.2 ["x"] [] (by decide)

/-- C8: `evaluateAuthorMemberCondition` resolves to false when `source`,
`source_id` or `condition` is missing/falsy, and rejects with
`Unsupported source` for a non-`group` source; but because the method is
`async` and `evaluateConditions` never awaits it, the composite
evaluation sees a promise object — truthy — so the condition passes and
the configuration error does not propagate to the caller (it becomes an
unhandled rejection instead). -/
theorem author_member_error_not_propagated :
    (∀ lookup p, (PolicyEngine.optStrFalsy p.source || PolicyEngine.optIntFalsy p.source_id
        || PolicyEngine.optStrFalsy p.condition) = true →
      PolicyEngine.evaluateAuthorMemberCondition lookup p = .ok false)
    ∧ (∀ lookup, PolicyEngine.evaluateAuthorMemberCondition lookup
        { source := some "org", source_id := some 5, condition := some "member_of" }
        = .error "Unsupported source: org")
    ∧ (∀ fns now lookup r,
        PolicyEngine.evaluateConditions fns now lookup r
          [PolicyEngine.Condition.author_member
            ⟨some "org", some 5, some "member_of"⟩] = true) := by
  refine ⟨?_, fun lookup => rfl, fun fns now lookup r => rfl⟩
  intro lookup p hp
  unfold PolicyEngine.evaluateAuthorMemberCondition
  rw [if_pos hp]

/-- C8 witness: the missing-parameter conjunct applied at a parameter
record with no `source`. -/
theorem author_member_error_not_propagated_witness :
    PolicyEngine.evaluateAuthorMemberCondition none
      { source := none, source_id := some 1, condition := some "member_of" } = .ok false :=
  author_member_error_not_propagated.1 none
    { source := none, source_id := some 1, condition := some "member_of" } (by decide)

/-- C6: for a positive `most_recent` limit (the configuration schema
`LimitsSchema` only admits positive integers; `0` would be falsy and skip
the branch), `applyLimits` returns the `N` newest resources of a freshly
sorted copy: result length is `min N (length input)`, the result is in
descending creation order, and it together with the dropped remainder
permutes the untouched input while dominating it in creation time. -/
theorem apply_limits_most_recent (resources : List PolicyEngine.TriageResource) (N : Nat)
    (h : 0 < N) :
    (PolicyEngine.applyLimits resources
        (some { most_recent := some N, oldest := none })).length = min N resources.length
    ∧ List.Pairwise (fun a b => b.created_at ≤ a.created_at)
        (PolicyEngine.applyLimits resources (some { most_recent := some N, oldest := none }))
    ∧ ∃ dropped,
        List.Perm
          ((PolicyEngine.applyLimits resources
              (some { most_recent := some N, oldest := none })) ++ dropped)
          resources
        ∧ ∀ a ∈ PolicyEngine.applyLimits resources
              (some { most_recent := some N, oldest := none }),
            ∀ b ∈ dropped, b.created_at ≤ a.created_at := by
  have happ : PolicyEngine.applyLimits resources (some { most_recent := some N, oldest := none })
      = (PolicyEngine.sortDescByCreated resources).take N := by
    unfold PolicyEngine.applyLimits
    simp [PolicyEngine.optNatTruthy, Nat.pos_iff_ne_zero.mp h]
  have hperm : List.Perm (PolicyEngine.sortDescByCreated resources) resources :=
    List.perm_insertionSort _ _
  have hsorted : List.Pairwise PolicyEngine.createdDescRel
      (PolicyEngine.sortDescByCreated resources) :=
    List.sorted_insertionSort PolicyEngine.createdDescRel resources
  have hps : List.Pairwise PolicyEngine.createdDescRel
      ((PolicyEngine.sortDescByCreated resources).take N
        ++ (PolicyEngine.sortDescByCreated resources).drop N) := by
    rw [List.take_append_drop]; exact hsorted
  refine ⟨?_, ?_, ?_⟩
  · rw [happ, List.length_take, hperm.length_eq]
  · rw [happ]
    exact List.Pairwise.sublist (List.take_sublist _ _) hsorted
  · refine ⟨(PolicyEngine.sortDescByCreated resources).drop N, ?_, ?_⟩
    · rw [happ, List.take_append_drop]
      exact hperm
    · intro a ha b hb
      rw [happ] at ha
      exact (List.pairwise_append.mp hps).2.2 a ha b hb

/-- C6 witness: the theorem applied at a three-element list with `N = 2`. -/
theorem apply_limits_most_recent_witness :
    (PolicyEngine.applyLimits [⟨1, 10⟩, ⟨2, 30⟩, ⟨3, 20⟩]
        (some { most_recent := some 2, oldest := none })).length
      = min 2 ([⟨1, 10⟩, ⟨2, 30⟩, (⟨3, 20⟩ : PolicyEngine.TriageResource)]).length
    ∧ List.Pairwise (fun a b => b.created_at ≤ a.created_at)
        (PolicyEngine.applyLimits [⟨1, 10⟩, ⟨2, 30⟩, ⟨3, 20⟩]
          (some { most_recent := some 2, oldest := none }))
    ∧ ∃ dropped,
        List.Perm
          ((PolicyEngine.applyLimits [⟨1, 10⟩, ⟨2, 30⟩, ⟨3, 20⟩]
              (some { most_recent := some 2, oldest := none })) ++ dropped)
          [⟨1, 10⟩, ⟨2, 30⟩, ⟨3, 20⟩]
        ∧ ∀ a ∈ PolicyEngine.applyLimits [⟨1, 10⟩, ⟨2, 30⟩, ⟨3, 20⟩]
              (some { most_recent := some 2, oldest := none }),
            ∀ b ∈ dropped, b.created_at ≤ a.created_at :=
  apply_limits_most_recent [⟨1, 10⟩, ⟨2, 30⟩, ⟨3, 20⟩] 2 (by decide)

theorem addLabels_fst (r : ActionExecutor.Resource) (ls : List String) (rt : String)
    (d : Bool) :
    (ActionExecutor.addLabels r ls rt d).1 = { r with labels := r.labels ++ ls } := by
  cases d with
  | true => rfl
  | false =>
    cases hrt : ActionExecutor.apiClientKnown rt <;> simp [ActionExecutor.addLabels, hrt]

theorem removeLabels_fst (r : ActionExecutor.Resource) (ls : List String) (rt : String)
    (d : Bool) :
    (ActionExecutor.removeLabels r ls rt d).1
      = { r with labels := r.labels.filter (fun x => !ls.contains x) } := by
  cases d with
  | true => rfl
  | false =>
    cases hrt : ActionExecutor.apiClientKnown rt <;> simp [ActionExecutor.removeLabels, hrt]

theorem mergeMergeRequest_fst (r : ActionExecutor.Resource)
    (o : ActionExecutor.MergeOptions) (d : Bool) :
    (ActionExecutor.mergeMergeRequest r o d).1 = r := by
  cases d with
  | true => rfl
  | false => cases hc : o.cancel <;> simp [ActionExecutor.mergeMergeRequest, hc]

theorem changeStatus_fst (r : ActionExecutor.Resource) (st rt : String) (d : Bool) :
    (ActionExecutor.changeStatus r st rt d).1 = r := by
  cases d with
  | true => rfl
  | false =>
    by_cases h1 : rt = "issue"
    · simp [ActionExecutor.changeStatus, h1]
    · by_cases h2 : rt = "merge_request"
      · by_cases h3 : st = "close"
        · simp [ActionExecutor.changeStatus, h1, h2, h3]
        · by_cases h4 : st = "reopen"
          · simp [ActionExecutor.changeStatus, h1, h2, h3, h4]
          · by_cases h5 : st = "merge"
            · simp [ActionExecutor.changeStatus, h1, h2, h3, h4, h5, mergeMergeRequest_fst]
            · simp [ActionExecutor.changeStatus, h1, h2, h3, h4, h5]
      · simp [ActionExecutor.changeStatus, h1, h2]

theorem assignResource_fst (r : ActionExecutor.Resource) (aid : Int) (rt : String)
    (d : Bool) :
    (ActionExecutor.assignResource r aid rt d).1 = r := by
  cases d with
  | true => rfl
  | false =>
    cases hrt : ActionExecutor.apiClientKnown rt <;> simp [ActionExecutor.assignResource, hrt]

theorem assignReviewer_fst (r : ActionExecutor.Resource)
    (ids : ActionExecutor.ReviewerIds) (d : Bool) :
    (ActionExecutor.assignReviewer r ids d).1 = r := by
  cases d <;> rfl

theorem mentionUsers_fst (r : ActionExecutor.Resource) (users : List String) (rt : String)
    (d : Bool) :
    (ActionExecutor.mentionUsers r users rt d).1 = r := by
  cases d with
  | true => rfl
  | false =>
    cases hrt : ActionExecutor.apiClientKnown rt <;> simp [ActionExecutor.mentionUsers, hrt]

theorem moveResource_fst (r : ActionExecutor.Resource) (tgt : String) (d : Bool) :
    (ActionExecutor.moveResource r tgt d).1 = r := by
  cases d <;> rfl

theorem step_good (gate : Bool)
    (fd fl : ActionExecutor.Resource → ActionExecutor.Resource × List ActionExecutor.RemoteCall)
    (hf : ∀ r, (fd r).1 = (fl r).1 ∧ (fd r).2 = [])
    (sd sl : ActionExecutor.Resource × List ActionExecutor.RemoteCall)
    (h1 : sd.1 = sl.1) (h2 : sd.2 = []) :
    (ActionExecutor.step gate fd sd).1 = (ActionExecutor.step gate fl sl).1
    ∧ (ActionExecutor.step gate fd sd).2 = [] := by
  cases gate with
  | false => exact ⟨h1, h2⟩
  | true =>
    constructor
    · show (fd sd.1).1 = (fl sl.1).1
      rw [h1]
      exact (hf sl.1).1
    · show sd.2 ++ (fd sd.1).2 = []
      rw [h2, (hf sd.1).2]
      rfl

theorem stepKeep_good (gate : Bool)
    (fd fl : ActionExecutor.Resource → ActionExecutor.Resource × List ActionExecutor.RemoteCall)
    (hf : ∀ r, (fd r).2 = [])
    (sd sl : ActionExecutor.Resource × List ActionExecutor.RemoteCall)
    (h1 : sd.1 = sl.1) (h2 : sd.2 = []) :
    (ActionExecutor.stepKeep gate fd sd).1 = (ActionExecutor.stepKeep gate fl sl).1
    ∧ (ActionExecutor.stepKeep gate fd sd).2 = [] := by
  cases gate with
  | false => exact ⟨h1, h2⟩
  | true =>
    refine ⟨h1, ?_⟩
    show sd.2 ++ (fd sd.1).2 = []
    rw [h2, hf sd.1]
    rfl

theorem runActions_good (acts : ActionExecutor.Actions) (rt : String)
    (r0 : ActionExecutor.Resource) :
    (ActionExecutor.runActions acts rt true r0).1
      = (ActionExecutor.runActions acts rt false r0).1
    ∧ (ActionExecutor.runActions acts rt true r0).2 = [] := by
  have g1 := step_good acts.labels.isSome
    (fun r => ActionExecutor.addLabels r (acts.labels.getD []) rt true)
    (fun r => ActionExecutor.addLabels r (acts.labels.getD []) rt false)
    (fun r => ⟨(addLabels_fst r _ rt true).trans (addLabels_fst r _ rt false).symm, rfl⟩)
    (r0, []) (r0, []) rfl rfl
  have g2 := step_good acts.remove_labels.isSome
    (fun r => ActionExecutor.removeLabels r (acts.remove_labels.getD []) rt true)
    (fun r => ActionExecutor.removeLabels r (acts.remove_labels.getD []) rt false)
    (fun r => ⟨(removeLabels_fst r _ rt true).trans (removeLabels_fst r _ rt false).symm, rfl⟩)
    _ _ g1.1 g1.2
  have g3 := step_good (ActionExecutor.optStrTruthy acts.status)
    (fun r => ActionExecutor.changeStatus r (acts.status.getD "") rt true)
    (fun r => ActionExecutor.changeStatus r (acts.status.getD "") rt false)
    (fun r => ⟨(changeStatus_fst r _ rt true).trans (changeStatus_fst r _ rt false).symm, rfl⟩)
    _ _ g2.1 g2.2
  have g4 := step_good acts.mention.isSome
    (fun r => ActionExecutor.mentionUsers r (acts.mention.getD []) rt true)
    (fun r => ActionExecutor.mentionUsers r (acts.mention.getD []) rt false)
    (fun r => ⟨(mentionUsers_fst r _ rt true).trans (mentionUsers_fst r _ rt false).symm, rfl⟩)
    _ _ g3.1 g3.2
  have g5 := step_good (ActionExecutor.optStrTruthy acts.move && (rt == "issue"))
    (fun r => ActionExecutor.moveResource r (acts.move.getD "") true)
    (fun r => ActionExecutor.moveResource r (acts.move.getD "") false)
    (fun r => ⟨(moveResource_fst r _ true).trans (moveResource_fst r _ false).symm, rfl⟩)
    _ _ g4.1 g4.2
  have g6 := stepKeep_good (ActionExecutor.optStrTruthy acts.comment)
    (fun r => ActionExecutor.addComment r acts rt true)
    (fun r => ActionExecutor.addComment r acts rt false)
    (fun r => rfl)
    _ _ g5.1 g5.2
  have g7 := stepKeep_good (acts.delete.getD false && (rt == "branch"))
    (fun r => ActionExecutor.deleteBranch r true)
    (fun r => ActionExecutor.deleteBranch r false)
    (fun r => rfl)
    _ _ g6.1 g6.2
  have g8 := step_good (ActionExecutor.optIntTruthy acts.assignee)
    (fun r => ActionExecutor.assignResource r (acts.assignee.getD 0) rt true)
    (fun r => ActionExecutor.assignResource r (acts.assignee.getD 0) rt false)
    (fun r => ⟨(assignResource_fst r _ rt true).trans (assignResource_fst r _ rt false).symm,
      rfl⟩)
    _ _ g7.1 g7.2
  have g9 := step_good
    (ActionExecutor.reviewerTruthy acts.reviewer && (rt == "merge_request"))
    (fun r => ActionExecutor.assignReviewer r (acts.reviewer.getD (.list [])) true)
    (fun r => ActionExecutor.assignReviewer r (acts.reviewer.getD (.list [])) false)
    (fun r => ⟨(assignReviewer_fst r _ true).trans (assignReviewer_fst r _ false).symm, rfl⟩)
    _ _ g8.1 g8.2
  have g10 := step_good (acts.merge.isSome && (rt == "merge_request"))
    (fun r => ActionExecutor.mergeMergeRequest r (acts.merge.getD {}) true)
    (fun r => ActionExecutor.mergeMergeRequest r (acts.merge.getD {}) false)
    (fun r => ⟨(mergeMergeRequest_fst r _ true).trans (mergeMergeRequest_fst r _ false).symm,
      rfl⟩)
    _ _ g9.1 g9.2
  exact g10

theorem execRes_good (registry : List String) (acts : ActionExecutor.Actions) (rt : String)
    (r : ActionExecutor.Resource) :
    (ActionExecutor.execRes registry acts r rt true).1.resource
      = (ActionExecutor.execRes registry acts r rt false).1.resource
    ∧ (ActionExecutor.execRes registry acts r rt true).1.calls = []
    ∧ (ActionExecutor.execRes registry acts r rt true).2
      = (ActionExecutor.execRes registry acts r rt false).2 := by
  have hg := runActions_good acts rt r
  unfold ActionExecutor.execRes
  by_cases hext : ActionExecutor.optStrTruthy acts.extension = true
  · by_cases hreg : acts.extension.getD "" ∈ registry
    · simp [hext, hreg, hg.1, hg.2]
    · simp [hext, hreg, hg.1, hg.2]
  · simp [hext, hg.1, hg.2]

/-- C2: with `dryRun = true`, `execute` issues no remote call at all (no
edit, note-create, move, merge, or branch-delete), and the locally
threaded resources carry exactly the same label mutation as the live run
computes on the same inputs. -/
theorem dry_run_suppresses_remote_calls (registry : List String)
    (acts : ActionExecutor.Actions) (resources : List ActionExecutor.Resource)
    (resourceType : String) :
    (∀ t ∈ ActionExecutor.execute registry acts resources resourceType true, t.calls = [])
    ∧ (ActionExecutor.execute registry acts resources resourceType true).map
        (fun t => t.resource.labels)
      = (ActionExecutor.execute registry acts resources resourceType false).map
        (fun t => t.resource.labels) := by
  induction resources with
  | nil => exact ⟨fun t ht => absurd ht (by simp [ActionExecutor.execute]), rfl⟩
  | cons r rest ih =>
    have he := execRes_good registry acts resourceType r
    constructor
    · intro t ht
      simp only [ActionExecutor.execute] at ht
      by_cases hh : (ActionExecutor.execRes registry acts r resourceType true).2 = true
      · rw [if_pos hh] at ht
        simp only [List.mem_singleton] at ht
        rw [ht]
        exact he.2.1
      · rw [if_neg hh] at ht
        rcases List.mem_cons.mp ht with h | h
        · rw [h]
          exact he.2.1
        · exact ih.1 t h
    · simp only [ActionExecutor.execute]
      rw [← he.2.2]
      by_cases hh : (ActionExecutor.execRes registry acts r resourceType true).2 = true
      · rw [if_pos hh, if_pos hh]
        simp [he.1]
      · rw [if_neg hh, if_neg hh]
        simp only [List.map_cons, he.1, ih.2]

/-- C2 witness: the theorem applied to a one-resource dry run with a
label action. -/
theorem dry_run_suppresses_remote_calls_witness :
    (∀ t ∈ ActionExecutor.execute [] { labels := some ["x"] }
        [{ id := 1, project_id := 1, iid := 1, name := "", labels := ["a"] }] "issue" true,
      t.calls = [])
    ∧ (ActionExecutor.execute [] { labels := some ["x"] }
        [{ id := 1, project_id := 1, iid := 1, name := "", labels := ["a"] }] "issue" true).map
        (fun t => t.resource.labels)
      = (ActionExecutor.execute [] { labels := some ["x"] }
        [{ id := 1, project_id := 1, iid := 1, name := "", labels := ["a"] }] "issue" false).map
        (fun t => t.resource.labels) :=
  dry_run_suppresses_remote_calls [] { labels := some ["x"] }
    [{ id := 1, project_id := 1, iid := 1, name := "", labels := ["a"] }] "issue"

theorem stepKeep_fst (gate : Bool)
    (f : ActionExecutor.Resource → ActionExecutor.Resource × List ActionExecutor.RemoteCall)
    (s : ActionExecutor.Resource × List ActionExecutor.RemoteCall) :
    (ActionExecutor.stepKeep gate f s).1 = s.1 := by
  cases gate <;> rfl

theorem step_id (gate : Bool)
    (f : ActionExecutor.Resource → ActionExecutor.Resource × List ActionExecutor.RemoteCall)
    (s : ActionExecutor.Resource × List ActionExecutor.RemoteCall) (rid : Nat)
    (hf : ∀ r : ActionExecutor.Resource, ((f r).1).id = r.id)
    (hs : s.1.id = rid) : ((ActionExecutor.step gate f s).1).id = rid := by
  cases gate with
  | false => exact hs
  | true =>
    show ((f s.1).1).id = rid
    rw [hf s.1, hs]

theorem runActions_id (acts : ActionExecutor.Actions) (rt : String) (d : Bool)
    (r0 : ActionExecutor.Resource) :
    ((ActionExecutor.runActions acts rt d r0).1).id = r0.id := by
  have i1 := step_id acts.labels.isSome
    (fun r => ActionExecutor.addLabels r (acts.labels.getD []) rt d)
    (r0, []) r0.id (fun r => by rw [addLabels_fst]) rfl
  have i2 := step_id acts.remove_labels.isSome
    (fun r => ActionExecutor.removeLabels r (acts.remove_labels.getD []) rt d)
    _ _ (fun r => by rw [removeLabels_fst]) i1
  have i3 := step_id (ActionExecutor.optStrTruthy acts.status)
    (fun r => ActionExecutor.changeStatus r (acts.status.getD "") rt d)
    _ _ (fun r => by rw [changeStatus_fst]) i2
  have i4 := step_id acts.mention.isSome
    (fun r => ActionExecutor.mentionUsers r (acts.mention.getD []) rt d)
    _ _ (fun r => by rw [mentionUsers_fst]) i3
  have i5 := step_id (ActionExecutor.optStrTruthy acts.move && (rt == "issue"))
    (fun r => ActionExecutor.moveResource r (acts.move.getD "") d)
    _ _ (fun r => by rw [moveResource_fst]) i4
  have i6 : ((ActionExecutor.stepKeep (ActionExecutor.optStrTruthy acts.comment)
      (fun r => ActionExecutor.addComment r acts rt d)
      (ActionExecutor.step (ActionExecutor.optStrTruthy acts.move && (rt == "issue"))
        (fun r => ActionExecutor.moveResource r (acts.move.getD "") d)
        (ActionExecutor.step acts.mention.isSome
          (fun r => ActionExecutor.mentionUsers r (acts.mention.getD []) rt d)
          (ActionExecutor.step (ActionExecutor.optStrTruthy acts.status)
            (fun r => ActionExecutor.changeStatus r (acts.status.getD "") rt d)
            (ActionExecutor.step acts.remove_labels.isSome
              (fun r => ActionExecutor.removeLabels r (acts.remove_labels.getD []) rt d)
              (ActionExecutor.step acts.labels.isSome
                (fun r => ActionExecutor.addLabels r (acts.labels.getD []) rt d)
                (r0, []))))))).1).id = r0.id := by
    rw [stepKeep_fst]
    exact i5
  have i7 : ((ActionExecutor.stepKeep (acts.delete.getD false && (rt == "branch"))
      (fun r => ActionExecutor.deleteBranch r d)
      (ActionExecutor.stepKeep (ActionExecutor.optStrTruthy acts.comment)
        (fun r => ActionExecutor.addComment r acts rt d)
        (ActionExecutor.step (ActionExecutor.optStrTruthy acts.move && (rt == "issue"))
          (fun r => ActionExecutor.moveResource r (acts.move.getD "") d)
          (ActionExecutor.step acts.mention.isSome
            (fun r => ActionExecutor.mentionUsers r (acts.mention.getD []) rt d)
            (ActionExecutor.step (ActionExecutor.optStrTruthy acts.status)
              (fun r => ActionExecutor.changeStatus r (acts.status.getD "") rt d)
              (ActionExecutor.step acts.remove_labels.isSome
                (fun r => ActionExecutor.removeLabels r (acts.remove_labels.getD []) rt d)
                (ActionExecutor.step acts.labels.isSome
                  (fun r => ActionExecutor.addLabels r (acts.labels.getD []) rt d)
                  (r0, [])))))))).1).id = r0.id := by
    rw [stepKeep_fst]
    exact i6
  have i8 := step_id (ActionExecutor.optIntTruthy acts.assignee)
    (fun r => ActionExecutor.assignResource r (acts.assignee.getD 0) rt d)
    _ _ (fun r => by rw [assignResource_fst]) i7
  have i9 := step_id
    (ActionExecutor.reviewerTruthy acts.reviewer && (rt == "merge_request"))
    (fun r => ActionExecutor.assignReviewer r (acts.reviewer.getD (.list [])) d)
    _ _ (fun r => by rw [assignReviewer_fst]) i8
  have i10 := step_id (acts.merge.isSome && (rt == "merge_request"))
    (fun r => ActionExecutor.mergeMergeRequest r (acts.merge.getD {}) d)
    _ _ (fun r => by rw [mergeMergeRequest_fst]) i9
  exact i10

/-- C9: when the action map's `extension` names an alias previously
registered via `registerExtension`, `execute` runs the extension for the
first resource and then returns from the whole call: the trace has a
single entry (the first resource's), its extension dispatch is recorded,
and every later resource in the list receives no actions at all. -/
theorem extension_alias_short_circuits_execute (reg0 registry : List String)
    (acts : ActionExecutor.Actions) (rt : String) (dryRun : Bool) (a : String)
    (r1 r2 : ActionExecutor.Resource) (rest : List ActionExecutor.Resource)
    (hreg : ActionExecutor.registerExtension reg0 true a = some registry)
    (hext : acts.extension = some a) :
    ActionExecutor.execute registry acts (r1 :: r2 :: rest) rt dryRun
      = [(ActionExecutor.execRes registry acts r1 rt dryRun).1]
    ∧ (ActionExecutor.execRes registry acts r1 rt dryRun).1.extRuns = [(a, r1.id)] := by
  have ha : a ≠ "" ∧ registry = reg0 ++ [a] := by
    unfold ActionExecutor.registerExtension at hreg
    by_cases h : a = ""
    · simp [h] at hreg
    · simp [h] at hreg
      exact ⟨h, hreg.symm⟩
  have hmem : a ∈ registry := by
    rw [ha.2]
    exact List.mem_append_right _ (List.mem_singleton_self a)
  have hcontains : registry.contains a = true := List.elem_eq_true_of_mem hmem
  have hta : ActionExecutor.optStrTruthy acts.extension = true := by
    rw [hext]
    simp [ActionExecutor.optStrTruthy, ha.1]
  have h1 : (ActionExecutor.execRes registry acts r1 rt dryRun).2 = true := by
    unfold ActionExecutor.execRes
    simp [hext, ActionExecutor.optStrTruthy, ha.1, hmem]
  constructor
  · simp only [ActionExecutor.execute]
    rw [if_pos h1]
  · unfold ActionExecutor.execRes
    simp [hext, ActionExecutor.optStrTruthy, ha.1, hmem, runActions_id]

/-- C9 witness: a concrete two-resource run with a registered alias. -/
theorem extension_alias_short_circuits_execute_witness :
    ActionExecutor.execute ["myext"] { extension := some "myext" }
      [{ id := 1, project_id := 1, iid := 1, name := "", labels := [] },
        { id := 2, project_id := 1, iid := 2, name := "", labels := [] }] "issue" true
      = [(ActionExecutor.execRes ["myext"] { extension := some "myext" }
          { id := 1, project_id := 1, iid := 1, name := "", labels := [] } "issue" true).1]
    ∧ (ActionExecutor.execRes ["myext"] { extension := some "myext" }
        { id := 1, project_id := 1, iid := 1, name := "", labels := [] } "issue" true).1.extRuns
      = [("myext", 1)] :=
  extension_alias_short_circuits_execute [] ["myext"] { extension := some "myext" }
    "issue" true "myext"
    { id := 1, project_id := 1, iid := 1, name := "", labels := [] }
    { id := 2, project_id := 1, iid := 2, name := "", labels := [] } []
    rfl rfl

end GitlabTriage
